import Mathlib

/-!
Shallow embedding of `src/action/auth-mobile.js` (class `AuthAction`) from the
lightning-app repository: mobile authentication via PINs, fingerprint and
keystore storage, including the one-time migration from the legacy secure
store into the current (versioned) keychain store.

The JavaScript class mutates a shared store object and calls into injected
platform collaborators (navigation, keychain, legacy secure store,
fingerprint, alert, wallet).  We embed this as explicit state passing over a
record `St` holding the auth input fields, the wallet password fields, the
two key/value stores, a deterministic model of the random byte stream, and a
chronological log of the outward collaborator calls (navigation, alerts,
legacy-store reads, fingerprint challenges, wallet delegations).  Async
methods run to completion sequentially, matching the single-threaded flow of
the source.
-/

namespace AuthMobile

/-- Modelled from the spec: the constant `PIN_LENGTH` is imported from
`src/config`, which is not among the sources.  The spec only states that it
is a fixed PIN length `L`; its worked example uses `L = 6`, so we fix that
value.  No theorem below depends on the particular value. -/
def PIN_LENGTH : Nat := 6

def VERSION : String := "0"

def PIN : String := "DevicePin"

def PASS : String := "WalletPassword"

/-- The three PIN input fields of `store.auth` that `pushPinDigit` /
`popPinDigit` address by parameter name (`newPin`, `pinVerify`, `pin`). -/
inductive PinParam
  | newPin
  | pinVerify
  | pin
deriving DecidableEq

/-- `store.auth`: the ephemeral PIN input fields. -/
structure AuthState where
  newPin : String
  pinVerify : String
  pin : String
deriving DecidableEq

def AuthState.get : AuthState → PinParam → String
  | a, .newPin => a.newPin
  | a, .pinVerify => a.pinVerify
  | a, .pin => a.pin

def AuthState.set : AuthState → PinParam → String → AuthState
  | a, .newPin, v => { a with newPin := v }
  | a, .pinVerify, v => { a with pinVerify := v }
  | a, .pin, v => { a with pin := v }

/-- `store.wallet`: the wallet password fields this module mirrors secrets
into before delegating to the wallet collaborator. -/
structure WalletState where
  newPassword : String
  passwordVerify : String
  password : String
deriving DecidableEq

/-- A key/value secret store (used for both the current keychain store and
the legacy secure store).  `set` overwrites any previous entry for the key,
matching the idempotent-overwrite contract of `setInternetCredentials`. -/
structure Keystore where
  entries : List (String × String)
deriving DecidableEq

def Keystore.get (ks : Keystore) (k : String) : Option String :=
  (ks.entries.find? (fun e => e.1 == k)).map (fun e => e.2)

def Keystore.set (ks : Keystore) (k v : String) : Keystore :=
  ⟨(k, v) :: ks.entries.filter (fun e => !(e.1 == k))⟩

/-- Outward collaborator calls, recorded in chronological order:
navigation (`_nav.goSetPassword` / `goSetPasswordConfirm` / `goPassword`),
alerts (`Alert.alert` with the given title), legacy secure-store reads
(`SecureStore.getItemAsync`), the fingerprint challenge
(`Fingerprint.authenticateAsync`), and the wallet delegations
(`wallet.checkNewPassword` / `wallet.checkPassword`). -/
inductive Event
  | goSetPassword
  | goSetPasswordConfirm
  | goPassword
  | alerted (title : String)
  | legacyRead (key : String)
  | fingerprintChallenge
  | checkNewPassword
  | checkPassword
deriving DecidableEq

/-- The whole observable state threaded through `AuthAction`'s methods：
the shared store (`auth`, `wallet`), the current keychain store, the legacy
secure store (read-only migration source), the random byte stream (`rng` is
the infinite stream of bytes `randomBytes` would produce, `rngIdx` how many
have been consumed), and the event log. -/
structure St where
  auth : AuthState
  wallet : WalletState
  keystore : Keystore
  legacy : Keystore
  rng : Nat → Nat
  rngIdx : Nat
  events : List Event

/-- Record an outward collaborator call. -/
def emit (e : Event) (s : St) : St :=
  { s with events := s.events ++ [e] }

/-- `initSetPin()`: reset `newPin` and `pinVerify`, then navigate to the
set-password view. -/
def initSetPin (s : St) : St :=
  emit .goSetPassword { s with auth := { s.auth with newPin := "", pinVerify := "" } }

/-- `initPin()`: reset `pin`, then navigate to the password view. -/
def initPin (s : St) : St :=
  emit .goPassword { s with auth := { s.auth with pin := "" } }

/-- `_setToKeyStore(key, value)`: write `value` under the versioned key
`` `${VERSION}_${key}` `` in the current keychain store. -/
def _setToKeyStore (key value : String) (s : St) : St :=
  { s with keystore := s.keystore.set (VERSION ++ "_" ++ key) value }

/-- `_getFromKeyStoreLegacy(key)`: read from the legacy secure store
(`SecureStore.getItemAsync`); `none` models a `null` result. -/
def _getFromKeyStoreLegacy (key : String) (s : St) : Option String × St :=
  (s.legacy.get key, emit (.legacyRead key) s)

/-- `_migrateKeyStoreValue(key)`: read the legacy store; a `null` or empty
result (both falsy in `if (!legacyValue)`) yields `''` with no write;
otherwise write the value into the current store and return it. -/
def _migrateKeyStoreValue (key : String) (s : St) : String × St :=
  match _getFromKeyStoreLegacy key s with
  | (none, s) => ("", s)
  | (some v, s) => if v = "" then ("", s) else (v, _setToKeyStore key v s)

/-- `_getFromKeyStore(key)`: look up the versioned key in the current store;
if present (`if (credentials)`) return its password, else fall back to the
legacy migration. -/
def _getFromKeyStore (key : String) (s : St) : String × St :=
  match s.keystore.get (VERSION ++ "_" ++ key) with
  | some credentials => (credentials, s)
  | none => _migrateKeyStoreValue key s

/-- `_alert(title, callback)`: `Alert.alert(title, '', [{text: 'TRY AGAIN',
onPress: callback}])`.  Modelled from the spec: the Alert collaborator is
external; per the spec it presents a blocking modal whose single `TRY AGAIN`
action is bound to the retry callback, so the model records the alert and
then runs the callback as the user acknowledges the modal. -/
def _alert (title : String) (callback : St → St) (s : St) : St :=
  callback (emit (.alerted title) s)

/-- One lowercase hex digit for a nibble, as in `Buffer.toString('hex')`. -/
def hexDigit (n : Nat) : Char :=
  if n < 10 then Char.ofNat (48 + n) else Char.ofNat (87 + n)

/-- Hex encoding of one byte, high nibble first. -/
def byteToHex (b : Nat) : String :=
  String.mk [hexDigit (b / 16), hexDigit (b % 16)]

/-- Hex encoding of a byte list (`bytes.toString('hex')`). -/
def bytesToHex : List Nat → String
  | [] => ""
  | b :: bs => byteToHex b ++ bytesToHex bs

/-- `_secureRandomPassword()`: hex-encode the next 32 bytes of the random
stream (`randomBytes(32)` followed by `toString('hex')`). -/
def _secureRandomPassword (s : St) : String × St :=
  (bytesToHex ((List.range 32).map (fun i => s.rng (s.rngIdx + i) % 256)),
   { s with rngIdx := s.rngIdx + 32 })

/-- `_generateWalletPassword()`: generate a random password, store it under
`WalletPassword`, mirror it into `wallet.newPassword` / `passwordVerify`,
then delegate to `wallet.checkNewPassword()`. -/
def _generateWalletPassword (s : St) : St :=
  match _secureRandomPassword s with
  | (newPass, s) =>
    let s := _setToKeyStore PASS newPass s
    let s := { s with wallet := { s.wallet with newPassword := newPass, passwordVerify := newPass } }
    emit .checkNewPassword s

/-- `_unlockWallet()`: retrieve the stored wallet password, place it into
`wallet.password`, then delegate to `wallet.checkPassword()`. -/
def _unlockWallet (s : St) : St :=
  match _getFromKeyStore PASS s with
  | (storedPass, s) =>
    let s := { s with wallet := { s.wallet with password := storedPass } }
    emit .checkPassword s

/-- `checkNewPin()`: on a length or verification mismatch alert with a retry
resetting the set-PIN flow; otherwise persist the PIN and generate the
wallet password. -/
def checkNewPin (s : St) : St :=
  if s.auth.newPin.length ≠ PIN_LENGTH ∨ s.auth.newPin ≠ s.auth.pinVerify then
    _alert "PINs don't match" initSetPin s
  else
    _generateWalletPassword (_setToKeyStore PIN s.auth.newPin s)

/-- `checkPin()`: compare the entered pin with the stored one (read through
the migrating getter); alert with a retry resetting the pin view on
mismatch, unlock the wallet on match. -/
def checkPin (s : St) : St :=
  let pin := s.auth.pin
  match _getFromKeyStore PIN s with
  | (storedPin, s) =>
    if pin ≠ storedPin then _alert "Incorrect PIN" initPin s
    else _unlockWallet s

/-- `pushPinDigit({digit, param})`: append the digit while below
`PIN_LENGTH`; return early while still below `PIN_LENGTH`; otherwise trigger
the completion action for the field. -/
def pushPinDigit (digit : String) (param : PinParam) (s : St) : St :=
  let s :=
    if (s.auth.get param).length < PIN_LENGTH then
      { s with auth := s.auth.set param (s.auth.get param ++ digit) }
    else s
  if (s.auth.get param).length < PIN_LENGTH then s
  else
    match param with
    | .newPin => emit .goSetPasswordConfirm s
    | .pinVerify => checkNewPin s
    | .pin => checkPin s

/-- `popPinDigit({param})`: if the field is non-empty (truthy) drop its last
character (`slice(0, -1)`); if it is empty and is `pinVerify`, reset the
whole set-PIN flow. -/
def popPinDigit (param : PinParam) (s : St) : St :=
  if s.auth.get param ≠ "" then
    { s with auth := s.auth.set param (String.mk (s.auth.get param).data.dropLast) }
  else if param = .pinVerify then initSetPin s
  else s

/-- `tryFingerprint()`: silently return when hardware or enrollment is
missing; otherwise run the challenge (recorded as an event) and, only on
success, unlock the wallet.  The booleans are the replies of the external
`Fingerprint` adapter (`hasHardwareAsync`, `isEnrolledAsync`, the `success`
field of `authenticateAsync`). -/
def tryFingerprint (hasHardware isEnrolled success : Bool) (s : St) : St :=
  if ¬hasHardware ∨ ¬isEnrolled then s
  else
    let s := emit .fingerprintChallenge s
    if ¬success then s else _unlockWallet s

/-- A user gesture on a PIN pad: pushing one digit string or popping. -/
inductive PinOp
  | pushOp (digit : String) (param : PinParam)
  | popOp (param : PinParam)

/-- Run a sequence of PIN pad gestures. -/
def runPinOps : List PinOp → St → St
  | [], s => s
  | .pushOp d p :: ops, s => runPinOps ops (pushPinDigit d p s)
  | .popOp p :: ops, s => runPinOps ops (popPinDigit p s)

/-- A gesture whose pushed digit is a single character (pops qualify). -/
def PinOp.singleDigit : PinOp → Prop
  | .pushOp d _ => d.length = 1
  | .popOp _ => True

/-- Number of alert modals in an event log. -/
def alertCount (es : List Event) : Nat :=
  (es.filter (fun e => match e with | .alerted _ => true | _ => false)).length

/-- A lowercase hexadecimal character. -/
def IsHexChar (c : Char) : Prop :=
  ('0' ≤ c ∧ c ≤ '9') ∨ ('a' ≤ c ∧ c ≤ 'f')

instance (c : Char) : Decidable (IsHexChar c) := by
  unfold IsHexChar; infer_instance

/-- All three PIN fields are within the length bound. -/
def PinInv (s : St) : Prop :=
  ∀ p : PinParam, (s.auth.get p).length ≤ PIN_LENGTH

/-- A concrete random stream for witnesses. -/
def demoRng : Nat → Nat := fun _ => 0

/-- A concrete base state for witnesses: everything empty. -/
def baseSt : St :=
  { auth := ⟨"", "", ""⟩, wallet := ⟨"", "", ""⟩, keystore := ⟨[]⟩,
    legacy := ⟨[]⟩, rng := demoRng, rngIdx := 0, events := [] }

/-! ### Concrete states used by witnesses and the counterexample -/

/-- A concrete mismatching set-PIN state for witnesses. -/
def stC3 : St := { baseSt with auth := ⟨"123456", "123457", ""⟩ }

/-- A concrete matching set-PIN state for witnesses. -/
def stC4 : St := { baseSt with auth := ⟨"123456", "123456", ""⟩ }

/-- A concrete unlock state for witnesses: the stored PIN is `445566`, the
stored wallet password `73656372657431`, and the user entered `445566`. -/
def stC5 : St :=
  { baseSt with
    auth := ⟨"", "", "445566"⟩,
    keystore := ⟨[("0_DevicePin", "445566"), ("0_WalletPassword", "73656372657431")]⟩ }

/-- A full `newPin` field for the C7 counterexample. -/
def stC7 : St := { baseSt with auth := ⟨"123456", "", ""⟩ }

/-- A concrete state with two digits entered into `pin`, for witnesses. -/
def stC8 : St := { baseSt with auth := ⟨"", "", "12"⟩ }

/-! ### Keystore lookup lemmas -/

theorem find?_filter_ne {k k' : String} (h : k' ≠ k) :
    ∀ l : List (String × String),
      (l.filter (fun e => !(e.1 == k))).find? (fun e => e.1 == k') =
        l.find? (fun e => e.1 == k') := by
  intro l
  induction l with
  | nil => rfl
  | cons a l ih =>
    by_cases ha : a.1 = k'
    · have hk : (a.1 == k) = false := by
        simp [ha, h]
      simp [List.filter_cons, hk, List.find?, ha, h, ih]
    · have ha' : (a.1 == k') = false := by simp [ha]
      by_cases hk : a.1 = k
      · have hkk : (k == k') = false := by
          rw [beq_eq_false_iff_ne]
          exact fun he => h he.symm
        simp [List.filter_cons, hk, List.find?, ha', hkk, ih]
      · simp [List.filter_cons, hk, List.find?, ha', ih]

@[simp]
theorem Keystore.get_set_found (ks : Keystore) (k v : String) :
    (ks.set k v).get k = some v := by
  simp [Keystore.get, Keystore.set, List.find?]

theorem Keystore.get_set_ne (ks : Keystore) {k k' : String} (v : String) (h : k' ≠ k) :
    (ks.set k v).get k' = ks.get k' := by
  have hk : (k == k') = false := by
    rw [beq_eq_false_iff_ne]
    exact fun he => h he.symm
  simp [Keystore.get, Keystore.set, List.find?, hk, find?_filter_ne h]

/-- The versioned key computed by the source is the literal `"0_" ++ key`. -/
theorem vKey_eq (key : String) : VERSION ++ "_" ++ key = "0_" ++ key := rfl

theorem vKeyPIN : VERSION ++ "_" ++ PIN = "0_DevicePin" := rfl

theorem vKeyPASS : VERSION ++ "_" ++ PASS = "0_WalletPassword" := rfl

/-! ### C1 / C2: retrieval and migration -/

/-- Claim C1: A value present only in the legacy store is returned by a single
`_getFromKeyStore` call, written into the current store under the versioned
key `"0_" ++ K`, and a subsequent call returns it from the current store
with the state (hence the event log: no further legacy read) unchanged. -/
theorem getFromKeyStore_migrates (s : St) (K v : String)
    (h1 : s.keystore.get ("0_" ++ K) = none)
    (h2 : s.legacy.get K = some v) (h3 : v ≠ "") :
    (_getFromKeyStore K s).1 = v
    ∧ (_getFromKeyStore K s).2.keystore.get ("0_" ++ K) = some v
    ∧ _getFromKeyStore K (_getFromKeyStore K s).2 = (v, (_getFromKeyStore K s).2) := by
  have hfirst : _getFromKeyStore K s =
      (v, _setToKeyStore K v (emit (.legacyRead K) s)) := by
    unfold _getFromKeyStore
    rw [vKey_eq, h1]
    unfold _migrateKeyStoreValue _getFromKeyStoreLegacy
    simp [emit, h2, h3]
  have hstore : (_setToKeyStore K v (emit (.legacyRead K) s)).keystore.get ("0_" ++ K)
      = some v := by
    simp [_setToKeyStore, vKey_eq, emit]
  refine ⟨by rw [hfirst], by rw [hfirst]; exact hstore, ?_⟩
  rw [hfirst]
  unfold _getFromKeyStore
  rw [vKey_eq]
  simp [hstore]

/-- Witness for C1 at a concrete state: the legacy store holds
`DevicePin ↦ 445566` and the current store is empty. -/
theorem getFromKeyStore_migrates_witness :
    (_getFromKeyStore "DevicePin"
        { baseSt with legacy := ⟨[("DevicePin", "445566")]⟩ }).1 = "445566" :=
  (getFromKeyStore_migrates { baseSt with legacy := ⟨[("DevicePin", "445566")]⟩ }
    "DevicePin" "445566" (by decide) (by decide) (by decide)).1

/-- Claim C2: With no value in either store, `_getFromKeyStore` returns the
empty string (the embedding is total, so no error is raised). -/
theorem getFromKeyStore_empty (s : St) (K : String)
    (h1 : s.keystore.get ("0_" ++ K) = none)
    (h2 : s.legacy.get K = none) :
    (_getFromKeyStore K s).1 = "" := by
  unfold _getFromKeyStore
  rw [vKey_eq, h1]
  unfold _migrateKeyStoreValue _getFromKeyStoreLegacy
  simp [emit, h2]

/-- Witness for C2 at the empty base state. -/
theorem getFromKeyStore_empty_witness :
    (_getFromKeyStore "DevicePin" baseSt).1 = "" :=
  getFromKeyStore_empty baseSt "DevicePin" (by decide) (by decide)

/-! ### Event-log lemmas -/

theorem alertCount_append (es l : List Event) :
    alertCount (es ++ l) = alertCount es + alertCount l := by
  simp [alertCount, List.filter_append]

/-! ### C3: checkNewPin succeeds iff the two entries match at full length -/

/-- Claim C3: `checkNewPin` proceeds to the wallet-password generation (the
delegation event `checkNewPassword`) iff `newPin = pinVerify` and both have
length `PIN_LENGTH`; in every other case it emits exactly one alert, whose
retry resets `newPin` and `pinVerify` to empty and navigates back. -/
theorem checkNewPin_iff (s : St) :
    ((checkNewPin s).events = s.events ++ [Event.checkNewPassword]
      ↔ s.auth.newPin = s.auth.pinVerify
        ∧ s.auth.newPin.length = PIN_LENGTH
        ∧ s.auth.pinVerify.length = PIN_LENGTH)
    ∧ (¬(s.auth.newPin = s.auth.pinVerify ∧ s.auth.newPin.length = PIN_LENGTH) →
        (checkNewPin s).events
          = s.events ++ [Event.alerted "PINs don't match", Event.goSetPassword]
        ∧ alertCount (checkNewPin s).events = alertCount s.events + 1
        ∧ (checkNewPin s).auth.newPin = "" ∧ (checkNewPin s).auth.pinVerify = "") := by
  by_cases hcond : s.auth.newPin.length ≠ PIN_LENGTH ∨ s.auth.newPin ≠ s.auth.pinVerify
  · have hne : ¬(s.auth.newPin = s.auth.pinVerify ∧ s.auth.newPin.length = PIN_LENGTH) := by
      tauto
    have hred : checkNewPin s = _alert "PINs don't match" initSetPin s := by
      unfold checkNewPin
      rw [if_pos hcond]
    constructor
    · rw [hred]
      simp only [_alert, initSetPin, emit]
      constructor
      · intro habs
        rw [List.append_assoc] at habs
        have hcancel := List.append_cancel_left habs
        simp at hcancel
      · intro hmatch
        exact absurd ⟨hmatch.1, hmatch.2.1⟩ hne
    · intro _
      rw [hred]
      simp [_alert, initSetPin, emit, alertCount_append, alertCount]
  · push_neg at hcond
    obtain ⟨hlen, heq⟩ := hcond
    have hred : checkNewPin s
        = _generateWalletPassword (_setToKeyStore PIN s.auth.newPin s) := by
      unfold checkNewPin
      rw [if_neg (by simp [← heq, hlen])]
    have hev : (_generateWalletPassword (_setToKeyStore PIN s.auth.newPin s)).events
        = s.events ++ [Event.checkNewPassword] := by
      simp [_generateWalletPassword, _secureRandomPassword, _setToKeyStore, emit]
    constructor
    · rw [hred, hev]
      exact iff_of_true rfl ⟨heq, hlen, by rw [← heq]; exact hlen⟩
    · intro habs
      exact absurd ⟨heq, hlen⟩ habs

/-- Witness for C3 at the concrete mismatch `"123456"` / `"123457"`. -/
theorem checkNewPin_iff_witness :
    (checkNewPin stC3).events = [Event.alerted "PINs don't match", Event.goSetPassword]
    ∧ (checkNewPin stC3).auth.newPin = "" ∧ (checkNewPin stC3).auth.pinVerify = "" := by
  have h := (checkNewPin_iff stC3).2 (by decide)
  exact ⟨by simpa [stC3, baseSt] using h.1, h.2.2.1, h.2.2.2⟩

/-! ### C10: the failure branch of checkNewPin writes nothing -/

/-- Claim C10: When `checkNewPin` takes its failure branch, the current
keystore (and the legacy store) are left exactly as they were, so the
credentials under `"0_DevicePin"` and `"0_WalletPassword"` are unchanged. -/
theorem checkNewPin_failure_no_write (s : St)
    (h : ¬(s.auth.newPin = s.auth.pinVerify ∧ s.auth.newPin.length = PIN_LENGTH)) :
    (checkNewPin s).keystore = s.keystore
    ∧ (checkNewPin s).legacy = s.legacy
    ∧ (checkNewPin s).keystore.get "0_DevicePin" = s.keystore.get "0_DevicePin"
    ∧ (checkNewPin s).keystore.get "0_WalletPassword" = s.keystore.get "0_WalletPassword" := by
  have hcond : s.auth.newPin.length ≠ PIN_LENGTH ∨ s.auth.newPin ≠ s.auth.pinVerify := by
    tauto
  have hred : checkNewPin s = _alert "PINs don't match" initSetPin s := by
    unfold checkNewPin
    rw [if_pos hcond]
  rw [hred]
  simp [_alert, initSetPin, emit]

/-- Witness for C10 at the concrete mismatch state. -/
theorem checkNewPin_failure_no_write_witness :
    (checkNewPin stC3).keystore = stC3.keystore
    ∧ (checkNewPin stC3).legacy = stC3.legacy :=
  ⟨(checkNewPin_failure_no_write stC3 (by decide)).1,
   (checkNewPin_failure_no_write stC3 (by decide)).2.1⟩

/-! ### Hex-encoding lemmas -/

theorem byteToHex_length (b : Nat) : (byteToHex b).length = 2 := rfl

theorem bytesToHex_length : ∀ bs : List Nat, (bytesToHex bs).length = 2 * bs.length
  | [] => rfl
  | b :: bs => by
    simp [bytesToHex, String.length_append, byteToHex_length, bytesToHex_length bs]
    ring

theorem hexDigit_isHex : ∀ n, n < 16 → IsHexChar (hexDigit n) := by decide

theorem byteToHex_isHex (b : Nat) (hb : b < 256) :
    ∀ c ∈ (byteToHex b).data, IsHexChar c := by
  intro c hc
  have hdata : (byteToHex b).data = [hexDigit (b / 16), hexDigit (b % 16)] := rfl
  rw [hdata] at hc
  simp only [List.mem_cons, List.not_mem_nil, or_false] at hc
  rcases hc with rfl | rfl
  · exact hexDigit_isHex (b / 16) (by omega)
  · exact hexDigit_isHex (b % 16) (by omega)

theorem bytesToHex_isHex :
    ∀ bs : List Nat, (∀ b ∈ bs, b < 256) → ∀ c ∈ (bytesToHex bs).data, IsHexChar c
  | [], _, c, hc => by cases hc
  | b :: bs, hb, c, hc => by
    rw [bytesToHex, String.data_append] at hc
    rcases List.mem_append.1 hc with hc | hc
    · exact byteToHex_isHex b (hb b (by simp)) c hc
    · exact bytesToHex_isHex bs (fun x hx => hb x (by simp [hx])) c hc

/-! ### C4: the successful new-PIN flow stores the PIN and a hex secret -/

/-- Claim C4: After a successful `checkNewPin` (matching entries of length
`PIN_LENGTH`), the keystore holds the entered PIN under `"0_DevicePin"` and
a 64-character lowercase-hex secret under `"0_WalletPassword"`, and that
secret is mirrored into both `wallet.newPassword` and
`wallet.passwordVerify`. -/
theorem checkNewPin_success_stores (s : St)
    (hlen : s.auth.newPin.length = PIN_LENGTH)
    (heq : s.auth.newPin = s.auth.pinVerify) :
    ∃ secret : String,
      (checkNewPin s).keystore.get "0_DevicePin" = some s.auth.newPin
      ∧ (checkNewPin s).keystore.get "0_WalletPassword" = some secret
      ∧ secret.length = 64
      ∧ (∀ c ∈ secret.data, IsHexChar c)
      ∧ (checkNewPin s).wallet.newPassword = secret
      ∧ (checkNewPin s).wallet.passwordVerify = secret := by
  have hred : checkNewPin s
      = _generateWalletPassword (_setToKeyStore PIN s.auth.newPin s) := by
    unfold checkNewPin
    rw [if_neg (by simp [← heq, hlen])]
  set secret := bytesToHex ((List.range 32).map (fun i => s.rng (s.rngIdx + i) % 256))
    with hsecret
  have hwhole : (checkNewPin s).keystore
      = (s.keystore.set "0_DevicePin" s.auth.newPin).set "0_WalletPassword" secret := by
    rw [hred]
    simp only [_generateWalletPassword, _secureRandomPassword, _setToKeyStore, emit]
    rw [vKeyPIN, vKeyPASS]
  refine ⟨secret, ?_, ?_, ?_, ?_, ?_, ?_⟩
  · rw [hwhole, Keystore.get_set_ne _ _ (by decide), Keystore.get_set_found]
  · rw [hwhole, Keystore.get_set_found]
  · rw [hsecret, bytesToHex_length]
    simp
  · intro c hc
    refine bytesToHex_isHex _ ?_ c hc
    intro b hb
    simp only [List.mem_map] at hb
    obtain ⟨i, _, hi⟩ := hb
    omega
  · rw [hred]
    simp [_generateWalletPassword, _secureRandomPassword, _setToKeyStore, emit, hsecret]
  · rw [hred]
    simp [_generateWalletPassword, _secureRandomPassword, _setToKeyStore, emit, hsecret]

/-- Witness for C4 at the concrete matching state `"123456"`/`"123456"`. -/
theorem checkNewPin_success_stores_witness :
    ∃ secret : String,
      (checkNewPin stC4).keystore.get "0_DevicePin" = some stC4.auth.newPin
      ∧ (checkNewPin stC4).keystore.get "0_WalletPassword" = some secret
      ∧ secret.length = 64
      ∧ (∀ c ∈ secret.data, IsHexChar c)
      ∧ (checkNewPin stC4).wallet.newPassword = secret
      ∧ (checkNewPin stC4).wallet.passwordVerify = secret :=
  checkNewPin_success_stores stC4 (by decide) (by decide)

/-! ### Frame lemma for the migrating getter -/

/-- `_getFromKeyStore` never touches the auth fields, the wallet fields, or
the alert count (its only events are legacy reads). -/
theorem getFromKeyStore_frame (k : String) (s : St) :
    (_getFromKeyStore k s).2.auth = s.auth
    ∧ (_getFromKeyStore k s).2.wallet = s.wallet
    ∧ (_getFromKeyStore k s).2.legacy = s.legacy
    ∧ alertCount (_getFromKeyStore k s).2.events = alertCount s.events := by
  unfold _getFromKeyStore
  cases hk : s.keystore.get (VERSION ++ "_" ++ k) with
  | some v => exact ⟨rfl, rfl, rfl, rfl⟩
  | none =>
    unfold _migrateKeyStoreValue _getFromKeyStoreLegacy
    cases hl : s.legacy.get k with
    | none => simp [emit, alertCount_append, alertCount]
    | some v =>
      by_cases hv : v = "" <;>
        simp [hv, _setToKeyStore, emit, alertCount_append, alertCount]

/-! ### C5: checkPin fails exactly on a mismatch with the stored PIN -/

/-- Claim C5: `checkPin` alerts (with the retry resetting the unlock flow via
`initPin`) exactly when the entered pin differs from the PIN read through
`_getFromKeyStore`; on a match it reads the stored wallet secret, places it
into `wallet.password`, and delegates to the wallet collaborator
(`checkPassword`). -/
theorem checkPin_spec (s : St) :
    (s.auth.pin ≠ (_getFromKeyStore PIN s).1 →
        (checkPin s).events = (_getFromKeyStore PIN s).2.events
            ++ [Event.alerted "Incorrect PIN", Event.goPassword]
        ∧ (checkPin s).auth.pin = ""
        ∧ (checkPin s).wallet = s.wallet)
    ∧ (s.auth.pin = (_getFromKeyStore PIN s).1 →
        (checkPin s).wallet.password
            = (_getFromKeyStore PASS (_getFromKeyStore PIN s).2).1
        ∧ (checkPin s).events
            = (_getFromKeyStore PASS (_getFromKeyStore PIN s).2).2.events
              ++ [Event.checkPassword])
    ∧ alertCount (checkPin s).events
        = alertCount s.events
          + (if s.auth.pin = (_getFromKeyStore PIN s).1 then 0 else 1) := by
  have hred : checkPin s =
      if s.auth.pin ≠ (_getFromKeyStore PIN s).1
      then _alert "Incorrect PIN" initPin (_getFromKeyStore PIN s).2
      else _unlockWallet (_getFromKeyStore PIN s).2 := rfl
  by_cases hpin : s.auth.pin = (_getFromKeyStore PIN s).1
  · have hun : checkPin s
        = emit .checkPassword
            { (_getFromKeyStore PASS (_getFromKeyStore PIN s).2).2 with
              wallet := { (_getFromKeyStore PASS (_getFromKeyStore PIN s).2).2.wallet with
                          password := (_getFromKeyStore PASS (_getFromKeyStore PIN s).2).1 } } := by
      rw [hred, if_neg (by simpa using hpin)]
      rfl
    refine ⟨fun habs => absurd hpin habs,
      fun _ => ⟨by rw [hun]; rfl, by rw [hun]; simp [emit]⟩, ?_⟩
    rw [hun, if_pos hpin]
    simp only [emit, alertCount_append]
    rw [(getFromKeyStore_frame PASS (_getFromKeyStore PIN s).2).2.2.2,
      (getFromKeyStore_frame PIN s).2.2.2]
    simp [alertCount]
  · have hal : checkPin s
        = initPin (emit (.alerted "Incorrect PIN") (_getFromKeyStore PIN s).2) := by
      rw [hred, if_pos hpin]
      rfl
    refine ⟨fun _ => ⟨?_, ?_, ?_⟩, fun heq => absurd heq hpin, ?_⟩
    · rw [hal]
      simp [initPin, emit]
    · rw [hal]
      simp [initPin, emit]
    · rw [hal]
      have hw : (initPin (emit (.alerted "Incorrect PIN") (_getFromKeyStore PIN s).2)).wallet
          = (_getFromKeyStore PIN s).2.wallet := rfl
      rw [hw, (getFromKeyStore_frame PIN s).2.1]
    · rw [hal, if_neg hpin]
      simp only [initPin, emit, alertCount_append]
      rw [(getFromKeyStore_frame PIN s).2.2.2]
      simp [alertCount]

/-- Witness for C5 at the concrete matching unlock state. -/
theorem checkPin_spec_witness :
    (checkPin stC5).wallet.password = (_getFromKeyStore PASS (_getFromKeyStore PIN stC5).2).1
    ∧ (checkPin stC5).events
        = (_getFromKeyStore PASS (_getFromKeyStore PIN stC5).2).2.events
          ++ [Event.checkPassword] :=
  (checkPin_spec stC5).2.1 (by decide)

/-! ### C7: pushing onto a full field

The claim says a push onto a full field is a complete no-op.  The code does
drop the digit (the append is guarded by `length < PIN_LENGTH`), but the
early-return guard is the same `length < PIN_LENGTH` test, which is false
for a full field, so control falls through to the completion branch and the
navigation / verification / PIN-check is triggered again. -/

/-- Claim C7, counterexample: With `newPin` already at `PIN_LENGTH`, pushing a
digit leaves the field unchanged but does navigate (`goSetPasswordConfirm`
fires), so the call is not a no-op as claimed. -/
theorem pushPinDigit_full_counterexample :
    stC7.auth.newPin.length = PIN_LENGTH
    ∧ (pushPinDigit "7" PinParam.newPin stC7).auth.newPin = stC7.auth.newPin
    ∧ (pushPinDigit "7" PinParam.newPin stC7).events
        = [Event.goSetPasswordConfirm]
    ∧ stC7.events = [] := by
  refine ⟨by decide, rfl, rfl, rfl⟩

/-- Claim C7, amended: Pushing onto a field at (or beyond) `PIN_LENGTH` drops
the digit — the field and the rest of the state are as if no append
happened — but then triggers the completion action for the field again:
confirm-navigation for `newPin`, `checkNewPin` for `pinVerify`, `checkPin`
for `pin`. -/
theorem pushPinDigit_full_field (d : String) (p : PinParam) (s : St)
    (h : ¬(s.auth.get p).length < PIN_LENGTH) :
    pushPinDigit d p s =
      (match p with
       | .newPin => emit .goSetPasswordConfirm s
       | .pinVerify => checkNewPin s
       | .pin => checkPin s) := by
  simp only [pushPinDigit, if_neg h]
  cases p <;> rfl

/-- Witness for the amended C7 at the concrete full field. -/
theorem pushPinDigit_full_field_witness :
    pushPinDigit "7" PinParam.newPin stC7 = emit Event.goSetPasswordConfirm stC7 :=
  pushPinDigit_full_field "7" PinParam.newPin stC7 (by decide)

/-! ### C9: tryFingerprint frame and success path -/

/-- Claim C9: `tryFingerprint` leaves the state untouched when hardware or
enrollment is missing; when the challenge runs but fails, every state
component except the event log (which records the challenge) is untouched;
on success it runs exactly `_unlockWallet` — the same path as a successful
`checkPin`. -/
theorem tryFingerprint_spec :
    (∀ (hw en su : Bool) (s : St), hw = false ∨ en = false →
        tryFingerprint hw en su s = s)
    ∧ (∀ s : St,
        (tryFingerprint true true false s).auth = s.auth
        ∧ (tryFingerprint true true false s).wallet = s.wallet
        ∧ (tryFingerprint true true false s).keystore = s.keystore
        ∧ (tryFingerprint true true false s).legacy = s.legacy)
    ∧ (∀ s : St, tryFingerprint true true true s
        = _unlockWallet (emit .fingerprintChallenge s)) := by
  refine ⟨?_, ?_, ?_⟩
  · rintro hw en su s (rfl | rfl)
    · simp [tryFingerprint]
    · cases hw <;> simp [tryFingerprint]
  · intro s
    refine ⟨rfl, rfl, rfl, rfl⟩
  · intro s
    rfl

/-- Witness for C9: a missing-hardware call at the base state is the
identity, and a failed challenge leaves the wallet untouched. -/
theorem tryFingerprint_spec_witness :
    tryFingerprint false true true baseSt = baseSt
    ∧ (tryFingerprint true true false baseSt).wallet = baseSt.wallet :=
  ⟨tryFingerprint_spec.1 false true true baseSt (Or.inl rfl),
   (tryFingerprint_spec.2.1 baseSt).2.1⟩

/-! ### AuthState field lemmas -/

@[simp]
theorem AuthState.get_set_self (a : AuthState) (p : PinParam) (v : String) :
    (a.set p v).get p = v := by
  cases p <;> rfl

theorem AuthState.get_set_other (a : AuthState) {p q : PinParam} (v : String)
    (h : q ≠ p) : (a.set p v).get q = a.get q := by
  cases p <;> cases q <;> first | rfl | exact absurd rfl h

/-! ### C8: popPinDigit removes the last digit / resets on empty pinVerify -/

/-- Claim C8: On a non-empty field, `popPinDigit` removes exactly the last
character (the field is a prefix of the old value missing one character;
the other fields are untouched); on an empty `pinVerify` field it resets the
whole set-PIN flow: `newPin` and `pinVerify` end empty and the set-password
navigation fires. -/
theorem popPinDigit_spec :
    (∀ (p : PinParam) (s : St), s.auth.get p ≠ "" →
        (∃ c : Char,
          s.auth.get p = (popPinDigit p s).auth.get p ++ String.mk [c])
        ∧ ((popPinDigit p s).auth.get p).length + 1 = (s.auth.get p).length
        ∧ (∀ q, q ≠ p → (popPinDigit p s).auth.get q = s.auth.get q)
        ∧ (popPinDigit p s).events = s.events)
    ∧ (∀ s : St, s.auth.pinVerify = "" →
        (popPinDigit .pinVerify s).auth.newPin = ""
        ∧ (popPinDigit .pinVerify s).auth.pinVerify = ""
        ∧ (popPinDigit .pinVerify s).events = s.events ++ [Event.goSetPassword]) := by
  constructor
  · intro p s h
    have hdata : (s.auth.get p).data ≠ [] := by
      intro hd
      exact h (String.ext hd)
    have hpop : popPinDigit p s
        = { s with auth := s.auth.set p (String.mk (s.auth.get p).data.dropLast) } := by
      unfold popPinDigit
      rw [if_pos h]
    refine ⟨⟨(s.auth.get p).data.getLast hdata, ?_⟩, ?_, ?_, ?_⟩
    · rw [hpop]
      have hget : ({ s with auth := s.auth.set p (String.mk (s.auth.get p).data.dropLast) }
          : St).auth.get p = String.mk (s.auth.get p).data.dropLast := by
        simp
      rw [hget]
      have : String.mk (s.auth.get p).data.dropLast
            ++ String.mk [(s.auth.get p).data.getLast hdata]
          = String.mk ((s.auth.get p).data.dropLast
            ++ [(s.auth.get p).data.getLast hdata]) := rfl
      rw [this, List.dropLast_append_getLast hdata]
    · rw [hpop]
      have hlen : (String.mk (s.auth.get p).data.dropLast).length
          = (s.auth.get p).data.length - 1 := by
        show (s.auth.get p).data.dropLast.length = (s.auth.get p).data.length - 1
        exact List.length_dropLast _
      simp only [AuthState.get_set_self, hlen]
      have hpos : 0 < (s.auth.get p).data.length := List.length_pos.2 hdata
      have : (s.auth.get p).length = (s.auth.get p).data.length := rfl
      omega
    · intro q hq
      rw [hpop]
      exact AuthState.get_set_other s.auth _ hq
    · rw [hpop]
  · intro s h
    have hpop : popPinDigit .pinVerify s = initSetPin s := by
      unfold popPinDigit
      rw [if_neg (by simp [AuthState.get, h]), if_pos rfl]
    rw [hpop]
    exact ⟨rfl, rfl, rfl⟩

/-- Witness for C8: popping the two-digit `pin` field of `stC8`, and popping
the empty `pinVerify` field of the base state. -/
theorem popPinDigit_spec_witness :
    ((∃ c : Char,
        stC8.auth.get .pin = (popPinDigit .pin stC8).auth.get .pin ++ String.mk [c])
      ∧ ((popPinDigit .pin stC8).auth.get .pin).length + 1 = (stC8.auth.get .pin).length
      ∧ (∀ q, q ≠ PinParam.pin → (popPinDigit .pin stC8).auth.get q = stC8.auth.get q)
      ∧ (popPinDigit .pin stC8).events = stC8.events)
    ∧ ((popPinDigit .pinVerify baseSt).auth.newPin = ""
      ∧ (popPinDigit .pinVerify baseSt).auth.pinVerify = ""
      ∧ (popPinDigit .pinVerify baseSt).events = baseSt.events ++ [Event.goSetPassword]) :=
  ⟨popPinDigit_spec.1 .pin stC8 (by decide), popPinDigit_spec.2 baseSt rfl⟩

/-! ### C6: the PIN length bound is an invariant of every operation -/

theorem PinInv_congr {s t : St} (h : t.auth = s.auth) (hs : PinInv s) : PinInv t := by
  intro p
  rw [show t.auth.get p = s.auth.get p from by rw [h]]
  exact hs p

theorem generateWalletPassword_auth (t : St) :
    (_generateWalletPassword t).auth = t.auth := rfl

theorem unlockWallet_auth (t : St) : (_unlockWallet t).auth = t.auth := by
  have h1 : (_unlockWallet t).auth = (_getFromKeyStore PASS t).2.auth := rfl
  rw [h1, (getFromKeyStore_frame PASS t).1]

theorem PinInv_initSetPin (s : St) (h : PinInv s) : PinInv (initSetPin s) := by
  intro p
  cases p with
  | newPin => exact Nat.zero_le _
  | pinVerify => exact Nat.zero_le _
  | pin => exact h .pin

theorem PinInv_initPin (s : St) (h : PinInv s) : PinInv (initPin s) := by
  intro p
  cases p with
  | newPin => exact h .newPin
  | pinVerify => exact h .pinVerify
  | pin => exact Nat.zero_le _

theorem checkNewPin_PinInv (s : St) (h : PinInv s) : PinInv (checkNewPin s) := by
  by_cases hcond : s.auth.newPin.length ≠ PIN_LENGTH ∨ s.auth.newPin ≠ s.auth.pinVerify
  · have hred : checkNewPin s = initSetPin (emit (.alerted "PINs don't match") s) := by
      unfold checkNewPin
      rw [if_pos hcond]
      rfl
    rw [hred]
    exact PinInv_initSetPin _ h
  · push_neg at hcond
    obtain ⟨hlen, heq⟩ := hcond
    have hred : checkNewPin s
        = _generateWalletPassword (_setToKeyStore PIN s.auth.newPin s) := by
      unfold checkNewPin
      rw [if_neg (by simp [← heq, hlen])]
    rw [hred]
    exact PinInv_congr (generateWalletPassword_auth _) h

theorem checkPin_PinInv (s : St) (h : PinInv s) : PinInv (checkPin s) := by
  have hred : checkPin s =
      if s.auth.pin ≠ (_getFromKeyStore PIN s).1
      then _alert "Incorrect PIN" initPin (_getFromKeyStore PIN s).2
      else _unlockWallet (_getFromKeyStore PIN s).2 := rfl
  have hr : PinInv (_getFromKeyStore PIN s).2 :=
    PinInv_congr (getFromKeyStore_frame PIN s).1 h
  rw [hred]
  split
  · exact PinInv_initPin _ hr
  · exact PinInv_congr (unlockWallet_auth _) hr

theorem pushStep_PinInv (p : PinParam) (t : St) (ht : PinInv t) :
    PinInv (if (t.auth.get p).length < PIN_LENGTH then t
            else match p with
                 | .newPin => emit .goSetPasswordConfirm t
                 | .pinVerify => checkNewPin t
                 | .pin => checkPin t) := by
  split
  · exact ht
  · cases p with
    | newPin => exact ht
    | pinVerify => exact checkNewPin_PinInv t ht
    | pin => exact checkPin_PinInv t ht

theorem pushPinDigit_PinInv (d : String) (p : PinParam) (s : St)
    (hd : d.length = 1) (h : PinInv s) : PinInv (pushPinDigit d p s) := by
  have ht : PinInv (if (s.auth.get p).length < PIN_LENGTH
      then { s with auth := s.auth.set p (s.auth.get p ++ d) } else s) := by
    split
    · rename_i hlt
      intro q
      by_cases hq : q = p
      · subst hq
        have hgs : ({ s with auth := s.auth.set q (s.auth.get q ++ d) } : St).auth.get q
            = s.auth.get q ++ d := AuthState.get_set_self _ _ _
        rw [hgs, String.length_append, hd]
        omega
      · have hgo : ({ s with auth := s.auth.set p (s.auth.get p ++ d) } : St).auth.get q
            = s.auth.get q := AuthState.get_set_other _ _ hq
        rw [hgo]
        exact h q
    · exact h
  exact pushStep_PinInv p _ ht

theorem popPinDigit_PinInv (p : PinParam) (s : St) (h : PinInv s) :
    PinInv (popPinDigit p s) := by
  unfold popPinDigit
  split
  · intro q
    by_cases hq : q = p
    · subst hq
      have hgs : ({ s with auth := s.auth.set q (String.mk (s.auth.get q).data.dropLast) }
          : St).auth.get q = String.mk (s.auth.get q).data.dropLast :=
        AuthState.get_set_self _ _ _
      rw [hgs]
      have hlen : (String.mk (s.auth.get q).data.dropLast).length
          = (s.auth.get q).data.length - 1 := by
        show (s.auth.get q).data.dropLast.length = (s.auth.get q).data.length - 1
        exact List.length_dropLast _
      have horig : (s.auth.get q).length = (s.auth.get q).data.length := rfl
      have := h q
      omega
    · have hgo : ({ s with auth := s.auth.set p (String.mk (s.auth.get p).data.dropLast) }
          : St).auth.get q = s.auth.get q := AuthState.get_set_other _ _ hq
      rw [hgo]
      exact h q
  · split
    · exact PinInv_initSetPin s h
    · exact h

theorem tryFingerprint_PinInv (hw en su : Bool) (s : St) (h : PinInv s) :
    PinInv (tryFingerprint hw en su s) := by
  cases hw
  · exact h
  · cases en
    · exact h
    · cases su
      · exact h
      · exact PinInv_congr (unlockWallet_auth (emit .fingerprintChallenge s)) h

theorem runPinOps_PinInv :
    ∀ (ops : List PinOp) (s : St), (∀ op ∈ ops, op.singleDigit) →
      PinInv s → PinInv (runPinOps ops s)
  | [], _, _, h => h
  | .pushOp d p :: ops, s, hops, h =>
    runPinOps_PinInv ops _ (fun op hop => hops op (List.mem_cons_of_mem _ hop))
      (pushPinDigit_PinInv d p s (hops (.pushOp d p) (List.mem_cons_self _ _)) h)
  | .popOp p :: ops, s, hops, h =>
    runPinOps_PinInv ops _ (fun op hop => hops op (List.mem_cons_of_mem _ hop))
      (popPinDigit_PinInv p s h)

/-- Claim C6: The bound `length ≤ PIN_LENGTH` on every PIN field holds for a
state whose fields start empty, is preserved by any sequence of single-digit
pushes and pops, and is preserved by every operation of the controller. -/
theorem pin_bound_invariant :
    (∀ s : St, (∀ p, s.auth.get p = "") → PinInv s)
    ∧ (∀ (ops : List PinOp) (s : St), (∀ op ∈ ops, op.singleDigit) →
        PinInv s → PinInv (runPinOps ops s))
    ∧ (∀ s, PinInv s → PinInv (initSetPin s))
    ∧ (∀ s, PinInv s → PinInv (initPin s))
    ∧ (∀ s, PinInv s → PinInv (checkNewPin s))
    ∧ (∀ s, PinInv s → PinInv (checkPin s))
    ∧ (∀ (hw en su : Bool) s, PinInv s → PinInv (tryFingerprint hw en su s))
    ∧ (∀ d p s, d.length = 1 → PinInv s → PinInv (pushPinDigit d p s))
    ∧ (∀ p s, PinInv s → PinInv (popPinDigit p s)) := by
  refine ⟨?_, runPinOps_PinInv, PinInv_initSetPin, PinInv_initPin, checkNewPin_PinInv,
    checkPin_PinInv, tryFingerprint_PinInv, pushPinDigit_PinInv, popPinDigit_PinInv⟩
  intro s hp p
  rw [hp p]
  exact Nat.zero_le _

/-- Witness for C6: running a concrete gesture sequence from the empty base
state keeps all fields within the bound. -/
theorem pin_bound_invariant_witness :
    PinInv (runPinOps
      [PinOp.pushOp "1" .pin, PinOp.pushOp "2" .pin, PinOp.popOp .pin] baseSt) :=
  pin_bound_invariant.2.1 _ baseSt
    (by
      intro op hop
      simp only [List.mem_cons, List.not_mem_nil, or_false] at hop
      rcases hop with rfl | rfl | rfl
      · exact rfl
      · exact rfl
      · trivial)
    (pin_bound_invariant.1 baseSt (by intro p; cases p <;> rfl))

end AuthMobile
